import Mathlib

/-!
Verification of the graphrag-search context-assembly and agent-loop core.

The Python sources are shallowly embedded: each Python function a property
talks about is translated into a Lean definition of the same name (up to
Lean lexical rules), with Python dictionaries replaced by structures,
Python lists by `List`, floats by `ℚ` (or `ℝ` where square roots occur),
raised exceptions by `Except`, and the external capabilities (the token
encoder, the embedding service, the reasoning model, the sufficiency
judge) by explicit function parameters.  The Neo4j store is modeled as
lists of rows tagged with their `userEmail` property, and the Cypher
node-match patterns the code issues become filters over those rows.
-/

namespace GraphragSearch

/-! ## Python primitives -/

/-- Truthiness of an optional string exactly as Python evaluates `if s:`:
`None` and the empty string are falsy, every other string is truthy. -/
def truthyStr : Option String → Bool
  | none => false
  | some s => s ≠ ""

/-- Lowercasing as Python `str.lower()`, character by character. -/
def strToLower (s : String) : String := String.mk (s.data.map Char.toLower)

/-- Helper for Python `str.split()`: split on runs of whitespace, producing
no empty tokens.  `cur` holds the characters of the current token in
reverse. -/
def pySplitAux : List Char → List Char → List String
  | [], cur => if cur.isEmpty then [] else [String.mk cur.reverse]
  | c :: rest, cur =>
    if c.isWhitespace then
      if cur.isEmpty then pySplitAux rest []
      else String.mk cur.reverse :: pySplitAux rest []
    else pySplitAux rest (c :: cur)

/-- Python `str.split()` with no argument. -/
def pySplit (s : String) : List String := pySplitAux s.data []

/-- Occurrence of `pat` as a contiguous sublist of a character list. -/
def charSub (pat : List Char) : List Char → Bool
  | [] => pat.isEmpty
  | c :: rest => pat.isPrefixOf (c :: rest) || charSub pat rest

/-- Python substring test `sub in s`. -/
def strContains (s sub : String) : Bool :=
  charSub sub.data s.data

/-- Python `sep.join(xs)`. -/
def pyJoin (sep : String) : List String → String
  | [] => ""
  | [x] => x
  | x :: y :: rest => x ++ sep ++ pyJoin sep (y :: rest)

/-- Python `str.strip()`: drop leading and trailing whitespace. -/
def pyStrip (s : String) : String :=
  String.mk (((s.data.dropWhile Char.isWhitespace).reverse.dropWhile
    Char.isWhitespace).reverse)

/-- Python `max(xs)` over rationals: a left fold keeping the first maximal
element; `none` on an empty list (where Python raises `ValueError`). -/
def pyMax : List ℚ → Option ℚ
  | [] => none
  | x :: xs => some (xs.foldl (fun a b => if a < b then b else a) x)

/-- Insertion into a sorted list, by a boolean comparison. -/
def insertSorted {α : Type} (le : α → α → Bool) (x : α) : List α → List α
  | [] => [x]
  | y :: ys => if le x y then x :: y :: ys else y :: insertSorted le x ys

/-- An executable comparison sort.  Python's `list.sort` (timsort) and the
pandas `sort_values` sort agree with it up to the order of elements the
comparison cannot distinguish; every property proved below depends only on
the sorted list being a permutation of the input. -/
def stableSort {α : Type} (le : α → α → Bool) : List α → List α
  | [] => []
  | x :: xs => insertSorted le x (stableSort le xs)

/-- Equality of two lists of strings viewed as Python sets. -/
def strSetEq (a b : List String) : Bool :=
  a.all (fun x => b.contains x) && b.all (fun x => a.contains x)

/-! ## Data model

A community report record as assembled by the Cypher `RETURN { ... } as
report` map in `_get_community_reports_from_neo4j`
(src/query/neo4j_global_context.py).  `rank` is total because the Cypher
query coalesces a missing rank to 0; the mutable `occurrence` field is the
default weight attribute written by `_compute_community_weights_neo4j`
(the `community_weight_name` parameter is kept at its default). -/

structure Report where
  id : String
  title : String
  summary : String
  full_content : String
  entity_names : List String
  chunk_texts : List String
  rank : Int := 0
  occurrence : ℚ := 0
deriving Repr, DecidableEq

/-- A chunk record as assembled by the Cypher `RETURN { ... } as chunk_data`
map in `get_chunks_from_neo4j` (src/query/neo4j_local_context.py). -/
structure Chunk where
  id : String
  text : String
  entity_names : List String := []
  entity_descriptions : List String := []
  entity_types : List String := []
  document_titles : List String := []
  embedding : List ℚ := []
  relevance_score : ℚ := 0
deriving Repr, DecidableEq

/-- A `__Community__` node with its `userEmail` scoping property and the
report data reachable from it. -/
structure CommunityRow where
  userEmail : String
  report : Report
deriving Repr, DecidableEq

/-- A `__Chunk__` node with its `userEmail` scoping property and the chunk
data reachable from it. -/
structure ChunkRow where
  userEmail : String
  chunk : Chunk
deriving Repr, DecidableEq

/-- The Neo4j store contents relevant to the retrieval paths. -/
structure Neo4jStore where
  communities : List CommunityRow := []
  chunks : List ChunkRow := []
deriving Repr, DecidableEq

/-! ## Global context builder (src/query/neo4j_global_context.py) -/

/-- Weight formula of `_compute_community_weights_neo4j` (lines 282-289):
`len(set(entity_names)) + len(set(chunk_texts)) * 0.1`. -/
def communityWeight (r : Report) : ℚ :=
  (r.entity_names.dedup.length : ℚ) + (r.chunk_texts.dedup.length : ℚ) * (1 / 10)

/-- Embedding of `_compute_community_weights_neo4j` (lines 274-298): assign
every report its weight, then, when `normalize` is requested and the batch
is non-empty, divide by the batch maximum unless that maximum is not
positive. -/
def _compute_community_weights_neo4j (reports : List Report)
    (normalize : Bool := true) : List Report :=
  let weighted := reports.map (fun r => { r with occurrence := communityWeight r })
  if normalize && !weighted.isEmpty then
    let max_weight : ℚ := (pyMax (weighted.map (fun r => r.occurrence))).getD 0
    if max_weight > 0 then
      weighted.map (fun r => { r with occurrence := r.occurrence / max_weight })
    else
      weighted
  else
    weighted

/-- The searchable text of a report used by the relevance filter
(lines 243-247): `(title + " " + summary + " " + " ".join(entity_names)).lower()`. -/
def reportText (r : Report) : String :=
  strToLower (r.title ++ " " ++ r.summary ++ " " ++ pyJoin " " r.entity_names)

/-- The lexical relevance-filtering stage of `_get_community_reports_from_neo4j`
(lines 238-255).  The query is lowercased and split on whitespace; a report
is kept when some term of length > 2 is a substring of its searchable text;
when no report matches, the full candidate set is returned.  (Python puts
the terms in a `set`; only membership is consumed, so a list is faithful.) -/
def relevanceFilter (query : String) (reports : List Report) : List Report :=
  let query_terms := pySplit (strToLower query)
  if !query_terms.isEmpty then
    let relevant_reports := reports.filter (fun r =>
      query_terms.any (fun term => term.length > 2 && strContains (reportText r) term))
    if !relevant_reports.isEmpty then relevant_reports else reports
  else
    reports

/-- The query terms the relevance filter can actually match: lowercased
whitespace tokens of length > 2 (the spec's "retained query terms"). -/
def retainedTerms (query : String) : List String :=
  (pySplit (strToLower query)).filter (fun t => t.length > 2)

/-- The subset of reports whose searchable text contains some retained query
term as a substring. -/
def matchingReports (query : String) (reports : List Report) : List Report :=
  reports.filter (fun r => (retainedTerms query).any (fun t => strContains (reportText r) t))

/-- The Cypher retrieval stage of `_get_community_reports_from_neo4j`
(lines 175-236): when `self.user_email` is truthy the scoped query
`MATCH (c:__Community__ {userEmail: $user_email})` runs; otherwise the
unscoped query `MATCH (c:__Community__)` runs and returns every row. -/
def fetchCommunityReports (store : Neo4jStore) (user_email : Option String) :
    List Report :=
  if truthyStr user_email then
    (store.communities.filter
      (fun row => some row.userEmail == user_email)).map (fun row => row.report)
  else
    store.communities.map (fun row => row.report)

/-- Embedding of `_get_community_reports_from_neo4j` (lines 146-272): Cypher
retrieval, lexical relevance filtering, optional minimum-rank filtering
(`rank` is never `None` here because the Cypher query coalesces it), then
optional weight computation. -/
def _get_community_reports_from_neo4j (store : Neo4jStore)
    (user_email : Option String) (query : String)
    (include_community_rank : Bool := false) (min_community_rank : Int := 0)
    (include_community_weight : Bool := true)
    (normalize_community_weight : Bool := true) : List Report :=
  let reports := fetchCommunityReports store user_email
  let reports := relevanceFilter query reports
  let reports :=
    if include_community_rank && min_community_rank > 0 then
      reports.filter (fun r => r.rank ≥ min_community_rank)
    else reports
  if include_community_weight then
    _compute_community_weights_neo4j reports normalize_community_weight
  else
    reports

/-- Options of `_build_community_context` (lines 300-311), with the rank and
weight column names kept at their defaults. -/
structure GlobalContextParams where
  use_community_summary : Bool := true
  column_delimiter : String := "|"
  shuffle_data : Bool := true
  include_community_rank : Bool := false
  community_rank_name : String := "rank"
  include_community_weight : Bool := true
  community_weight_name : String := "occurrence"
  max_context_tokens : Nat := 8000
  context_name : String := "Reports"
deriving Repr, DecidableEq

/-- `_is_included` inside `_build_community_context` (lines 315-317):
`bool(report.get("summary") or report.get("full_content"))`. -/
def _is_included_report (r : Report) : Bool :=
  r.summary ≠ "" || r.full_content ≠ ""

/-- `_get_header` inside `_build_community_context` (lines 319-326). -/
def _get_header (p : GlobalContextParams) : List String :=
  ["id", "title"]
    ++ (if p.include_community_weight then [p.community_weight_name] else [])
    ++ [if p.use_community_summary then "summary" else "content"]
    ++ (if p.include_community_rank then [p.community_rank_name] else [])

/-- A packed record row: the serialized cells exactly as Python builds them,
together with the source report (whose `occurrence` and `rank` fields carry
the numbers that pandas later parses back out of the cell strings for
sorting). -/
structure ReportRow where
  report : Report
  cells : List String
deriving Repr, DecidableEq

/-- `_report_context_text` inside `_build_community_context` (lines 328-345):
the delimiter-joined serialized row and the cell list. -/
def _report_context_text (p : GlobalContextParams) (r : Report) :
    String × ReportRow :=
  let content := if p.use_community_summary then r.summary else r.full_content
  let cells := [r.id, r.title]
      ++ (if p.include_community_weight then [toString r.occurrence] else [])
      ++ [content]
      ++ (if p.include_community_rank then [toString r.rank] else [])
  (pyJoin p.column_delimiter cells ++ "\n", ⟨r, cells⟩)

/-- The serialized text of a packed row (what `_report_context_text` returned
as first component). -/
def rowText (p : GlobalContextParams) (row : ReportRow) : String :=
  pyJoin p.column_delimiter row.cells ++ "\n"

/-- The batch header text set by `_init_batch` (lines 367-373):
`f"-----{context_name}-----" + "\n" + column_delimiter.join(header) + "\n"`. -/
def globalHeaderText (p : GlobalContextParams) : String :=
  "-----" ++ p.context_name ++ "-----" ++ "\n"
    ++ pyJoin p.column_delimiter (_get_header p) ++ "\n"

/-- The packing loop of `_build_community_context` (lines 395-407): fold over
the selected reports, accumulating rows and the running token count that
started at the header's cost; on the first overflow the loop breaks (the
`True` flag) without adding the offending report. -/
def packReportsLoop (tc : String → Nat) (p : GlobalContextParams) :
    List Report → List ReportRow → Nat → List ReportRow × Nat × Bool
  | [], recs, toks => (recs, toks, false)
  | r :: rest, recs, toks =>
    let rt := _report_context_text p r
    let new_tokens := tc rt.1
    if toks + new_tokens > p.max_context_tokens then (recs, toks, true)
    else packReportsLoop tc p rest (recs ++ [rt.2]) (toks + new_tokens)

/-- Descending lexicographic comparison on the active weight/rank sort keys,
as `_rank_report_context` (lines 429-445) sorts the DataFrame
(`sort_values(by=rank_attributes, ascending=False)`); the `astype(float)`
round-trip through the cell strings is modeled by comparing the source
report's numeric fields directly. -/
def rowGe (p : GlobalContextParams) (a b : ReportRow) : Bool :=
  if p.include_community_weight then
    if a.report.occurrence = b.report.occurrence then
      !p.include_community_rank || b.report.rank ≤ a.report.rank
    else b.report.occurrence ≤ a.report.occurrence
  else if p.include_community_rank then b.report.rank ≤ a.report.rank
  else true

/-- `_convert_report_context_to_df` (lines 447-466): the DataFrame is modeled
as the sorted row list (its CSV serialization is not part of the model). -/
def _convert_report_context_to_df (p : GlobalContextParams)
    (context_records : List ReportRow) : List ReportRow :=
  stableSort (rowGe p) context_records

/-- The batch-cutting core of `_build_community_context` (lines 359-417):
run the packing loop over the already-shuffled selected reports; a batch is
cut inside the loop only when it breaks on overflow; afterwards the
duplicate-batch guard (lines 409-417) cuts the final batch unless its id
set (first cell of each record) was already emitted; `_cut_batch` skips
empty record lists. -/
def communityBatches (tc : String → Nat) (p : GlobalContextParams)
    (sel : List Report) : List (List ReportRow) :=
  let packed := packReportsLoop tc p sel [] (tc (globalHeaderText p))
  let batch_records := packed.1
  let broke := packed.2.2
  let first_cut : List (List ReportRow) :=
    if broke then
      (if batch_records.isEmpty then [] else [_convert_report_context_to_df p batch_records])
    else []
  let current_batch_ids := batch_records.map (fun row => row.cells.headD "")
  let existing_ids_sets := first_cut.map (fun b => b.map (fun row => row.cells.headD ""))
  if existing_ids_sets.any (fun ids => strSetEq ids current_batch_ids) then first_cut
  else first_cut
    ++ (if batch_records.isEmpty then [] else [_convert_report_context_to_df p batch_records])

/-- Embedding of `_build_community_context` (lines 300-427).  `tc` abstracts
`num_tokens(·, token_encoder)`; `shuffle` abstracts the seeded
`random.shuffle` of lines 353-355.  Returns the emitted batches together
with the `context_records` mapping `{context_name.lower(): concatenation
of the batches}` (both empty when no record was added, the
`NO_COMMUNITY_RECORDS_WARNING` paths at lines 349-351 and 419-421). -/
def _build_community_context (tc : String → Nat) (p : GlobalContextParams)
    (shuffle : List Report → List Report) (community_reports : List Report) :
    List (List ReportRow) × List (String × List ReportRow) :=
  let selected_reports := community_reports.filter _is_included_report
  if selected_reports.isEmpty then ([], [])
  else
    let selected_reports :=
      if p.shuffle_data then shuffle selected_reports else selected_reports
    let all_context_records := communityBatches tc p selected_reports
    if all_context_records.isEmpty then ([], [])
    else
      (all_context_records,
        [(strToLower p.context_name, all_context_records.flatten)])

/-! ## Local context builder (src/query/neo4j_local_context.py) -/

/-- Embedding of `get_chunks_from_neo4j` (lines 142-208).
`has_openai_client` abstracts `self.openai_client`; `score` abstracts the
cosine similarity of the freshly embedded query against a chunk's stored
embedding (lines 191-197); `embed_ok` is false when the embedding call
raises, in which case the `except` branch keeps the unscored, unsorted,
unthresholded chunk list.  The missing-key and missing-client checks at
lines 149-152 run before any session is opened. -/
def get_chunks_from_neo4j (store : Neo4jStore) (user_email : Option String)
    (has_openai_client : Bool) (score : Chunk → ℚ) (embed_ok : Bool)
    (relevance_score_threshold : ℚ := 3/10) : Except String (List Chunk) :=
  if !truthyStr user_email then .error "User email is required"
  else if !has_openai_client then .error "OpenAI API key is required"
  else
    let chunks := (store.chunks.filter
      (fun row => some row.userEmail == user_email)).map (fun row => row.chunk)
    if chunks.isEmpty then .ok chunks
    else if embed_ok then
      let scored := chunks.map (fun c => { c with relevance_score := score c })
      let sorted := stableSort
        (fun a b => b.relevance_score ≤ a.relevance_score) scored
      .ok (sorted.filter (fun c => c.relevance_score ≥ relevance_score_threshold))
    else .ok chunks

/-- `_is_included` inside `_build_chunks_context` (lines 240-242):
`bool(chunk.get("text", "").strip())`. -/
def _is_included_chunk (c : Chunk) : Bool :=
  pyStrip c.text ≠ ""

/-- `_chunk_context_text` inside `_build_chunks_context` (lines 255-280):
the serialized chunk text (the DataFrame record it also builds is dropped
by the caller, so it is not modeled). -/
def _chunk_context_text (c : Chunk) : String :=
  let entity_names_str := pyJoin ", " c.entity_names
  let entity_descriptions_str := pyJoin "; " c.entity_descriptions
  let entity_types_str := pyJoin ", " c.entity_types
  let document_titles_str := pyJoin ", " c.document_titles
  "Chunk ID: " ++ c.id ++ "\n" ++
  "Text: " ++ c.text ++ "\n" ++
  "Entities: " ++ entity_names_str ++ "\n" ++
  "Entity Descriptions: " ++ entity_descriptions_str ++ "\n" ++
  "Entity Types: " ++ entity_types_str ++ "\n" ++
  "Documents: " ++ document_titles_str ++ "\n" ++
  "Relevance Score: " ++ toString c.relevance_score ++ "\n"

/-- Token cost of one serialized chunk (line 295):
`num_tokens(context_text, token_encoder) if token_encoder else
len(context_text.split())`. -/
def chunkTokens (tc : Option (String → Nat)) (text : String) : Nat :=
  match tc with
  | some f => f text
  | none => (pySplit text).length

/-- The packing loop of `_build_chunks_context` (lines 291-303): a chunk is
skipped (the loop breaks) only when the budget would be exceeded AND the
current batch is non-empty, so the first included chunk is always packed. -/
def packChunksLoop (tc : Option (String → Nat)) (max_context_tokens : Nat) :
    List Chunk → List String → Nat → List String
  | [], current_context, _ => current_context
  | c :: rest, current_context, current_tokens =>
    let t := _chunk_context_text c
    let n := chunkTokens tc t
    if current_tokens + n > max_context_tokens && !current_context.isEmpty then
      current_context
    else
      packChunksLoop tc max_context_tokens rest (current_context ++ [t])
        (current_tokens + n)

/-- Embedding of `_build_chunks_context` (lines 226-307).  The
`context_data` dictionary is created empty at line 286 and never written,
so the returned record mapping is always `[]`.  When `chunks_data` is
non-empty but every chunk is filtered out, `included_chunks[0]` inside the
`logger.info` f-string at line 290 raises `IndexError` (f-strings are
evaluated eagerly). -/
def _build_chunks_context (tc : Option (String → Nat)) (chunks_data : List Chunk)
    (max_context_tokens : Nat := 8000) :
    Except String (String × List (String × List String)) :=
  if chunks_data.isEmpty then .ok ("", [])
  else
    let included_chunks := chunks_data.filter _is_included_chunk
    match included_chunks with
    | [] => .error "IndexError: list index out of range"
    | _ :: _ =>
      let current_context := packChunksLoop tc max_context_tokens included_chunks [] 0
      let final_context :=
        if current_context.isEmpty then "" else pyJoin "\n\n---\n\n" current_context
      .ok (final_context, [])

/-! ## Raw Cypher passthrough (src/service/unstructured.py) -/

/-- The `userEmail` condition appearing (or not) in a caller-written Cypher
match pattern: no condition at all, a literal email, or a reference to the
`$user_email` parameter. -/
inductive EmailCond where
  | noCond
  | lit (e : String)
  | param
deriving Repr, DecidableEq

/-- A caller-supplied Cypher query, restricted to the chunk node-match
fragment the repository itself uses: `MATCH (c:__Chunk__ {...}) RETURN c`
with an optional `userEmail` condition. -/
structure CypherChunkQuery where
  emailCond : EmailCond
deriving Repr, DecidableEq

/-- Embedding of `UnstructuredService.run_cypher_query`
(src/service/unstructured.py lines 147-165): the caller's query text is
executed as-is against the store with the single parameter binding
`user_email="system@example.com"`; no per-caller scoping is imposed on the
query. -/
def run_cypher_query (store : Neo4jStore) (q : CypherChunkQuery) : List ChunkRow :=
  match q.emailCond with
  | .noCond => store.chunks
  | .lit e => store.chunks.filter (fun row => row.userEmail = e)
  | .param => store.chunks.filter (fun row => row.userEmail = "system@example.com")

/-- No two chunk rows of the store share an id (the
`chunk_id_unique` constraint installed by `initialize_schema`,
src/service/unstructured.py lines 60-63). -/
def uniqueChunkIds (store : Neo4jStore) : Prop :=
  ∀ r1 ∈ store.chunks, ∀ r2 ∈ store.chunks, r1.chunk.id = r2.chunk.id → r1 = r2

/-- No two community rows of the store share a report id (the
`community_id_unique` constraint installed by `initialize_schema`). -/
def uniqueCommunityIds (store : Neo4jStore) : Prop :=
  ∀ r1 ∈ store.communities, ∀ r2 ∈ store.communities,
    r1.report.id = r2.report.id → r1 = r2

/-! ## Cosine similarity (src/utils/functions.py) -/

/-- `np.dot` on two vectors. -/
def dotList (a b : List ℝ) : ℝ := (List.zipWith (fun x y => x * y) a b).sum

/-- `np.linalg.norm`: the Euclidean norm. -/
noncomputable def normList (a : List ℝ) : ℝ := Real.sqrt (dotList a a)

/-- Embedding of `cosine_similarity` (src/utils/functions.py lines 74-84)
over real vectors: `0.0` when either input is empty, otherwise
`np.dot(a, b) / (np.linalg.norm(a) * np.linalg.norm(b))`. -/
noncomputable def cosine_similarity (a b : List ℝ) : ℝ :=
  if a.isEmpty || b.isEmpty then 0
  else dotList a b / (normList a * normList b)

/-! ## Search agent (src/agents/search_agent.py) -/

/-- A role-tagged history message. -/
structure Message where
  role : String
  content : String
deriving Repr, DecidableEq

/-- Embedding of `SearchAgent._truncate_content` (lines 86-90): content
longer than `max_length` characters is cut to its first `max_length`
characters and suffixed with the truncation marker. -/
def _truncate_content (content : String) (max_length : Nat := 2000) : String :=
  if content.length > max_length then
    String.mk (content.data.take max_length) ++ "... [truncated]"
  else content

/-- Embedding of `update_reasoning_model_history` (lines 92-100).  `dumps`
abstracts Python `json.dumps` applied to the tool-result value; `str()` on
the message text is the identity since the loop feeds it strings. -/
def update_reasoning_model_history (dumps : String → String)
    (history : List Message) (response : String) (response_type : String) :
    List Message :=
  if response_type = "function_call" then
    history ++ [⟨"assistant", "Tool result: " ++ _truncate_content (dumps response) 2000⟩]
  else if response_type = "message" then
    history ++ [⟨"assistant", _truncate_content response 2000⟩]
  else history

/-- The reasoning model's per-iteration output (`response.output[1]` in
`reasoning_model`): a tool call, a plain message, or anything else (which
the loop ignores for history purposes). -/
inductive ReasoningOutput where
  | function_call (name : String) (arguments : String)
  | message (text : String)
  | other
deriving Repr, DecidableEq

/-- The judge's parsed verdict (`evaluate_sufficiency`), with `final_answer`
optional as in the JSON contract. -/
structure SufficiencyVerdict where
  sufficient : Bool
  final_answer : Option String
deriving Repr, DecidableEq

/-- The history update performed by one iteration of `run` (lines 174-181):
a tool call appends the truncated tool result, a message appends the
truncated text, anything else appends nothing.  `toolResult` abstracts
`call_tool`. -/
def runStep (dumps : String → String) (toolResult : String → String → String)
    (history : List Message) (resp : ReasoningOutput) : List Message :=
  match resp with
  | .function_call n args =>
      update_reasoning_model_history dumps history (toolResult n args) "function_call"
  | .message t => update_reasoning_model_history dumps history t "message"
  | .other => history

/-- `self.max_plans` (line 54). -/
def max_plans : Nat := 10

/-- The iteration core of `SearchAgent.run` (lines 163-187), with the
external reasoning model and sufficiency judge abstracted as oracles
indexed by the iteration number (each external call happens exactly once
per iteration, so one run's responses are a function of the iteration
index).  The loop returns the judge's answer as soon as a verdict is
`sufficient` with a truthy `final_answer`; `fuel` iterations remain and
`iters` have executed.  The result pairs the returned answer (Python's
implicit `None` when the range is exhausted) with the number of iterations
executed. -/
def runAux (dumps : String → String) (toolResult : String → String → String)
    (reason : Nat → ReasoningOutput) (judge : Nat → SufficiencyVerdict) :
    Nat → Nat → List Message → Option String × Nat
  | 0, iters, _ => (none, iters)
  | fuel + 1, iters, history =>
    let resp := reason iters
    let history' := runStep dumps toolResult history resp
    let v := judge iters
    if v.sufficient && truthyStr v.final_answer then (v.final_answer, iters + 1)
    else runAux dumps toolResult reason judge fuel (iters + 1) history'

/-- `SearchAgent.run` (lines 163-187): at most `max_plans` iterations over
the initial history. -/
def run (dumps : String → String) (toolResult : String → String → String)
    (reason : Nat → ReasoningOutput) (judge : Nat → SufficiencyVerdict)
    (history0 : List Message) : Option String × Nat :=
  runAux dumps toolResult reason judge max_plans 0 history0

/-! ## Concrete fixtures used by the witnesses and counterexamples -/

/-- Fixture report with 2 distinct entities and 1 chunk text. -/
def c4r1 : Report :=
  { id := "1", title := "t1", summary := "s1", full_content := "f1",
    entity_names := ["a", "b", "a"], chunk_texts := ["x"] }

/-- Fixture report with no entities and no chunk texts. -/
def c4r2 : Report :=
  { id := "2", title := "t2", summary := "s2", full_content := "f2",
    entity_names := [], chunk_texts := [] }

/-- Fixture report whose text shares no term with the fixture queries. -/
def c5r1 : Report :=
  { id := "1", title := "alpha", summary := "beta gamma", full_content := "delta",
    entity_names := ["epsilon"], chunk_texts := [] }

/-- Fixture store owned entirely by bob. -/
def c1store : Neo4jStore :=
  { communities := [⟨"bob@example.com",
      { id := "c1", title := "bob community", summary := "bob summary",
        full_content := "bob content", entity_names := [], chunk_texts := [] }⟩] }

/-- Fixture store holding one chunk of alice and one chunk of bob. -/
def c3store : Neo4jStore :=
  { chunks := [
      ⟨"alice@example.com", { id := "ca", text := "alice text" }⟩,
      ⟨"bob@example.com", { id := "cb", text := "bob text" }⟩] }

/-- Fixture chunk with several words of text. -/
def c2chunk : Chunk :=
  { id := "k1", text := "one two three four five" }

/-- Fixture chunk with whitespace-only text. -/
def c10chunk : Chunk :=
  { id := "w1", text := "   " }

/-! ## Helper lemmas -/

theorem pyMaxFold_spec (x : ℚ) (xs : List ℚ) :
    (xs.foldl (fun a b => if a < b then b else a) x) ∈ x :: xs ∧
      ∀ b ∈ x :: xs, b ≤ xs.foldl (fun a b => if a < b then b else a) x := by
  induction xs generalizing x with
  | nil => simp
  | cons y ys ih =>
    simp only [List.foldl_cons]
    by_cases hxy : x < y
    · rw [if_pos hxy]
      obtain ⟨hmem, hub⟩ := ih y
      refine ⟨?_, ?_⟩
      · rcases List.mem_cons.mp hmem with h | h
        · exact List.mem_cons.mpr (Or.inr (List.mem_cons.mpr (Or.inl h)))
        · exact List.mem_cons.mpr (Or.inr (List.mem_cons.mpr (Or.inr h)))
      · intro b hb
        rcases List.mem_cons.mp hb with rfl | hb
        · exact le_trans (le_of_lt hxy) (hub y (List.mem_cons_self y ys))
        · exact hub b hb
    · rw [if_neg hxy]
      obtain ⟨hmem, hub⟩ := ih x
      refine ⟨?_, ?_⟩
      · rcases List.mem_cons.mp hmem with h | h
        · exact List.mem_cons.mpr (Or.inl h)
        · exact List.mem_cons.mpr (Or.inr (List.mem_cons.mpr (Or.inr h)))
      · intro b hb
        rcases List.mem_cons.mp hb with rfl | hb'
        · exact hub b (List.mem_cons_self b ys)
        · rcases List.mem_cons.mp hb' with rfl | hb''
          · exact le_trans (le_of_not_lt hxy) (hub x (List.mem_cons_self x ys))
          · exact hub b (List.mem_cons_of_mem x hb'')

theorem pyMax_spec {l : List ℚ} {a : ℚ} (h : pyMax l = some a) :
    a ∈ l ∧ ∀ b ∈ l, b ≤ a := by
  cases l with
  | nil => simp [pyMax] at h
  | cons x xs =>
    simp only [pyMax, Option.some.injEq] at h
    subst h
    exact pyMaxFold_spec x xs

theorem pyMax_eq_some {l : List ℚ} {a : ℚ}
    (hmem : a ∈ l) (hub : ∀ b ∈ l, b ≤ a) : pyMax l = some a := by
  cases l with
  | nil => simp at hmem
  | cons x xs =>
    obtain ⟨hm, hu⟩ := pyMaxFold_spec x xs
    simp only [pyMax, Option.some.injEq]
    exact le_antisymm (hub _ hm) (hu a hmem)

theorem communityWeight_nonneg (r : Report) : 0 ≤ communityWeight r := by
  unfold communityWeight
  positivity

/-! ## C4: weight computation and normalization -/

/-- C4: for every non-empty batch of reports, `_compute_community_weights_neo4j`
assigns each report the weight `distinct entity names + 0.1 * distinct
chunk texts`; when normalization is requested it divides every weight by
the batch maximum `M`, after which the maximum weight is exactly 1 when
`M > 0`, while every weight stays 0 when `M = 0`. -/
theorem C4_weight_normalizer (reports : List Report) (h : reports ≠ []) :
    (_compute_community_weights_neo4j reports false
        = reports.map (fun r => { r with occurrence := communityWeight r })) ∧
    (∀ M, pyMax (reports.map communityWeight) = some M →
      ((0 < M → _compute_community_weights_neo4j reports true
          = reports.map (fun r => { r with occurrence := communityWeight r / M })) ∧
       (0 < M → pyMax ((_compute_community_weights_neo4j reports true).map
          (fun r => r.occurrence)) = some 1) ∧
       (M = 0 → ∀ r ∈ _compute_community_weights_neo4j reports true,
          r.occurrence = 0))) := by
  refine ⟨by simp [_compute_community_weights_neo4j], ?_⟩
  intro M hM
  obtain ⟨hMmem, hMub⟩ := pyMax_spec hM
  have hocc : (reports.map (fun r => { r with occurrence := communityWeight r })).map
      (fun r : Report => r.occurrence) = reports.map communityWeight := by
    simp [List.map_map, Function.comp]
  have hne : (reports.map (fun r => { r with occurrence := communityWeight r })) ≠ [] := by
    simpa using h
  refine ⟨?_, ?_, ?_⟩
  · intro hMpos
    simp only [_compute_community_weights_neo4j]
    rw [if_pos, hocc, hM]
    · simp only [Option.getD_some]
      rw [if_pos hMpos]
      simp [List.map_map, Function.comp]
    · simp [hne]
  · intro hMpos
    simp only [_compute_community_weights_neo4j]
    rw [if_pos, hocc, hM]
    · simp only [Option.getD_some]
      rw [if_pos hMpos]
      apply pyMax_eq_some
      · simp only [List.map_map, List.mem_map, Function.comp]
        obtain ⟨r, hr, hrw⟩ := List.mem_map.mp hMmem
        exact ⟨r, hr, by simp [hrw, div_self (ne_of_gt hMpos)]⟩
      · intro b hb
        simp only [List.map_map, List.mem_map, Function.comp] at hb
        obtain ⟨r, hr, hrw⟩ := hb
        have : communityWeight r ≤ M := hMub _ (List.mem_map.mpr ⟨r, hr, rfl⟩)
        subst hrw
        simpa using (div_le_one hMpos).mpr this
    · simp [hne]
  · intro hM0 r hr
    have hall0 : ∀ b ∈ reports.map communityWeight, b = 0 := by
      intro b hb
      obtain ⟨s, hs, rfl⟩ := List.mem_map.mp hb
      exact le_antisymm (hM0 ▸ hMub _ hb) (communityWeight_nonneg s)
    simp only [_compute_community_weights_neo4j] at hr
    rw [if_pos (by simp [hne]), hocc, hM] at hr
    simp only [Option.getD_some, hM0, lt_irrefl] at hr
    rw [if_neg (by norm_num)] at hr
    obtain ⟨s, hs, rfl⟩ := List.mem_map.mp hr
    exact hall0 _ (List.mem_map.mpr ⟨s, hs, rfl⟩)

/-- C4 witness: on the concrete batch `[c4r1, c4r2]` the pre-normalization
maximum is `21/10 > 0` and after normalization the maximum weight is 1. -/
theorem C4_witness :
    pyMax ((_compute_community_weights_neo4j [c4r1, c4r2] true).map
        (fun r => r.occurrence)) = some 1 :=
  ((C4_weight_normalizer [c4r1, c4r2] (by simp)).2 (21/10)
    (by simp [pyMax, communityWeight, c4r1, c4r2]; norm_num)).2.1 (by norm_num)

/-! ## C5: lexical relevance filtering with full-set fallback -/

/-- C5: the relevance filter restricts to the reports whose searchable text
contains some retained query term (lowercased whitespace token of length
> 2) as a substring whenever that subset is non-empty, returns the full
candidate set otherwise, and never maps a non-empty candidate set to the
empty list. -/
theorem C5_relevance_fallback (query : String) (reports : List Report) :
    (matchingReports query reports ≠ [] →
        relevanceFilter query reports = matchingReports query reports) ∧
    (matchingReports query reports = [] →
        relevanceFilter query reports = reports) ∧
    (reports ≠ [] → relevanceFilter query reports ≠ []) := by
  have hkey : reports.filter (fun r =>
      (pySplit (strToLower query)).any
        (fun term => term.length > 2 && strContains (reportText r) term))
      = matchingReports query reports := by
    simp only [matchingReports, retainedTerms, List.any_filter]
  by_cases hq : (pySplit (strToLower query)).isEmpty
  · have hterms : pySplit (strToLower query) = [] := by
      simpa [List.isEmpty_iff] using hq
    have hm : matchingReports query reports = [] := by
      rw [← hkey, hterms]
      simp
    have hfull : relevanceFilter query reports = reports := by
      simp [relevanceFilter, hq]
    exact ⟨fun hc => absurd hm hc, fun _ => hfull, fun hr => by rw [hfull]; exact hr⟩
  · by_cases hrel : matchingReports query reports = []
    · have hfull : relevanceFilter query reports = reports := by
        simp only [relevanceFilter]
        rw [if_pos (by simpa using hq)]
        rw [hkey, hrel]
        simp
      exact ⟨fun hc => absurd hrel hc, fun _ => hfull, fun hr => by rw [hfull]; exact hr⟩
    · have hres : relevanceFilter query reports = matchingReports query reports := by
        simp only [relevanceFilter]
        rw [if_pos (by simpa using hq)]
        rw [hkey]
        rw [if_pos (by simpa [List.isEmpty_iff] using hrel)]
      refine ⟨fun _ => hres, fun hc => absurd hc hrel, fun hr => ?_⟩
      rw [hres]
      exact hrel

/-- C5 witness: the spec scenario — the query `"xyz-no-match-term"` shares no
retained term with the non-empty report set `[c5r1]`, and the filter
returns the full candidate set. -/
theorem C5_witness :
    relevanceFilter "xyz-no-match-term" [c5r1] = [c5r1] :=
  (C5_relevance_fallback "xyz-no-match-term" [c5r1]).2.1 (by decide)

/-! ## C9: cosine similarity -/

theorem dotList_self (a : List ℝ) : dotList a a = (a.map (fun x => x * x)).sum := by
  induction a with
  | nil => rfl
  | cons x xs ih =>
    simp only [dotList, List.zipWith, List.sum_cons, List.map_cons] at *
    rw [ih]

theorem dotList_self_pos {a : List ℝ} {x : ℝ} (hx : x ∈ a) (hx0 : x ≠ 0) :
    0 < dotList a a := by
  rw [dotList_self]
  have h1 : x * x ∈ a.map (fun y => y * y) := List.mem_map.mpr ⟨x, hx, rfl⟩
  have h2 : ∀ y ∈ a.map (fun y => y * y), (0:ℝ) ≤ y := by
    intro y hy
    obtain ⟨z, _, rfl⟩ := List.mem_map.mp hy
    exact mul_self_nonneg z
  have hxx : 0 < x * x := mul_self_pos.mpr hx0
  exact lt_of_lt_of_le hxx (List.single_le_sum h2 _ h1)

/-- C9: `cosine_similarity` returns 0 when either vector is empty, equals
`dot(a,b) / (‖a‖·‖b‖)` on non-empty vectors, and equals exactly 1 on a pair
of identical vectors having some non-zero component (the real-valued
reading of "within floating tolerance"). -/
theorem C9_cosine_similarity (a b : List ℝ) :
    (a = [] ∨ b = [] → cosine_similarity a b = 0) ∧
    (a ≠ [] → b ≠ [] →
        cosine_similarity a b = dotList a b / (normList a * normList b)) ∧
    (∀ x ∈ a, x ≠ 0 → cosine_similarity a a = 1) := by
  refine ⟨?_, ?_, ?_⟩
  · rintro (rfl | rfl) <;> simp [cosine_similarity]
  · intro ha hb
    simp [cosine_similarity, List.isEmpty_iff, ha, hb]
  · intro x hx hx0
    have ha : a ≠ [] := by rintro rfl; simp at hx
    have hd : 0 < dotList a a := dotList_self_pos hx hx0
    simp only [cosine_similarity, normList]
    rw [if_neg (by simp [List.isEmpty_iff, ha])]
    rw [Real.mul_self_sqrt (le_of_lt hd)]
    exact div_self (ne_of_gt hd)

/-- C9 witness: the identical non-zero vectors `[1]` have cosine similarity
exactly 1. -/
theorem C9_witness : cosine_similarity [1] [1] = 1 :=
  (C9_cosine_similarity [1] [1]).2.2 1 (by simp) one_ne_zero

/-! ## C7: history truncation -/

theorem truncate_length_le (c : String) :
    (_truncate_content c 2000).length ≤ 2015 := by
  unfold _truncate_content
  split
  · rename_i hlen
    rw [String.length_append]
    have hcd : c.length = c.data.length := rfl
    have h1 : (String.mk (c.data.take 2000)).length = 2000 := by
      show (c.data.take 2000).length = 2000
      rw [List.length_take]
      omega
    have h2 : ("... [truncated]" : String).length = 15 := by decide
    omega
  · rename_i hlen
    omega

/-- C7: `_truncate_content` leaves payloads of at most 2000 characters
unchanged, cuts longer payloads to their first 2000 characters plus the
truncation marker (total length 2015), and consequently every entry
`update_reasoning_model_history` appends has content of at most
`len("Tool result: ") + 2015 = 2028` characters. -/
theorem C7_truncation (dumps : String → String) (history : List Message)
    (response : String) (response_type : String) :
    (∀ c : String, c.length ≤ 2000 → _truncate_content c 2000 = c) ∧
    (∀ c : String, c.length > 2000 →
        _truncate_content c 2000
          = String.mk (c.data.take 2000) ++ "... [truncated]" ∧
        (_truncate_content c 2000).length = 2015) ∧
    (update_reasoning_model_history dumps history response response_type = history ∨
      ∃ m : Message, m.role = "assistant" ∧ m.content.length ≤ 2028 ∧
        update_reasoning_model_history dumps history response response_type
          = history ++ [m]) := by
  refine ⟨?_, ?_, ?_⟩
  · intro c hc
    unfold _truncate_content
    rw [if_neg (by omega)]
  · intro c hc
    constructor
    · unfold _truncate_content
      rw [if_pos (by omega)]
    · unfold _truncate_content
      rw [if_pos (by omega), String.length_append]
      have hcd : c.length = c.data.length := rfl
      have h1 : (String.mk (c.data.take 2000)).length = 2000 := by
        show (c.data.take 2000).length = 2000
        rw [List.length_take]
        omega
      have h2 : ("... [truncated]" : String).length = 15 := by decide
      omega
  · unfold update_reasoning_model_history
    by_cases h1 : response_type = "function_call"
    · rw [if_pos h1]
      refine Or.inr ⟨_, rfl, ?_, rfl⟩
      show ("Tool result: " ++ _truncate_content (dumps response) 2000).length ≤ 2028
      rw [String.length_append]
      have h2 : ("Tool result: " : String).length = 13 := by decide
      have := truncate_length_le (dumps response)
      omega
    · rw [if_neg h1]
      by_cases h2 : response_type = "message"
      · rw [if_pos h2]
        refine Or.inr ⟨_, rfl, ?_, rfl⟩
        show (_truncate_content response 2000).length ≤ 2028
        have := truncate_length_le response
        omega
      · rw [if_neg h2]
        exact Or.inl rfl

/-- C7 witness: a short payload passes through `_truncate_content`
unchanged. -/
theorem C7_witness : _truncate_content "abc" 2000 = "abc" :=
  (C7_truncation (fun s => s) [] "" "").1 "abc" (by decide)

/-! ## C6: reasoning-loop bound and termination -/

theorem runAux_iters (dumps : String → String)
    (toolResult : String → String → String) (reason : Nat → ReasoningOutput)
    (judge : Nat → SufficiencyVerdict) (fuel iters : Nat) (h : List Message) :
    (runAux dumps toolResult reason judge fuel iters h).2 ≤ iters + fuel := by
  induction fuel generalizing iters h with
  | zero => simp [runAux]
  | succ n ih =>
    simp only [runAux]
    split
    · simp only
      omega
    · exact le_trans (ih _ _) (by omega)

theorem runAux_none (dumps : String → String)
    (toolResult : String → String → String) (reason : Nat → ReasoningOutput)
    (judge : Nat → SufficiencyVerdict) (fuel iters : Nat) (h : List Message)
    (hnone : ∀ i, iters ≤ i → i < iters + fuel →
      ((judge i).sufficient && truthyStr (judge i).final_answer) = false) :
    runAux dumps toolResult reason judge fuel iters h = (none, iters + fuel) := by
  induction fuel generalizing iters h with
  | zero => simp [runAux]
  | succ n ih =>
    simp only [runAux]
    rw [if_neg (by simp [hnone iters (le_refl _) (by omega)])]
    rw [ih (iters + 1) _ (fun i h1 h2 => hnone i (by omega) (by omega))]
    have he : iters + 1 + n = iters + (n + 1) := by omega
    rw [he]

theorem runAux_finds (dumps : String → String)
    (toolResult : String → String → String) (reason : Nat → ReasoningOutput)
    (judge : Nat → SufficiencyVerdict) (fuel iters : Nat) (h : List Message)
    (k : Nat) (hk1 : iters ≤ k) (hk2 : k < iters + fuel)
    (hks : ((judge k).sufficient && truthyStr (judge k).final_answer) = true)
    (hbefore : ∀ i, iters ≤ i → i < k →
      ((judge i).sufficient && truthyStr (judge i).final_answer) = false) :
    runAux dumps toolResult reason judge fuel iters h
      = ((judge k).final_answer, k + 1) := by
  induction fuel generalizing iters h with
  | zero => omega
  | succ n ih =>
    simp only [runAux]
    by_cases hc : ((judge iters).sufficient && truthyStr (judge iters).final_answer) = true
    · have hik : iters = k := by
        by_contra hne
        have hlt : iters < k := lt_of_le_of_ne hk1 hne
        rw [hbefore iters (le_refl _) hlt] at hc
        exact Bool.false_ne_true hc
      subst hik
      rw [if_pos hc]
    · rw [if_neg hc]
      have hik : iters < k := lt_of_le_of_ne hk1 (fun he => hc (he ▸ hks))
      exact ih (iters + 1) _ (by omega) (by omega)
        (fun i hi1 hi2 => hbefore i (by omega) hi2)

/-- C6: the reasoning loop executes at most `max_plans = 10` iterations; if
the judge first signals a sufficient verdict with a truthy final answer at
iteration index `k` (0-based, so the `k+1`-st iteration), the loop stops
right there returning that non-null answer; if no iteration's verdict is
sufficient-with-answer, the loop runs exactly 10 iterations and returns no
answer. -/
theorem C6_reasoning_loop (dumps : String → String)
    (toolResult : String → String → String) (reason : Nat → ReasoningOutput)
    (judge : Nat → SufficiencyVerdict) (history0 : List Message) :
    ((run dumps toolResult reason judge history0).2 ≤ max_plans) ∧
    (∀ k, k < max_plans →
      ((judge k).sufficient && truthyStr (judge k).final_answer) = true →
      (∀ i, i < k → ((judge i).sufficient && truthyStr (judge i).final_answer) = false) →
      run dumps toolResult reason judge history0 = ((judge k).final_answer, k + 1) ∧
        (judge k).final_answer ≠ none) ∧
    ((∀ i, i < max_plans →
        ((judge i).sufficient && truthyStr (judge i).final_answer) = false) →
      run dumps toolResult reason judge history0 = (none, max_plans)) := by
  refine ⟨?_, ?_, ?_⟩
  · simpa using runAux_iters dumps toolResult reason judge max_plans 0 history0
  · intro k hk hks hb
    refine ⟨?_, ?_⟩
    · simpa using runAux_finds dumps toolResult reason judge max_plans 0 history0 k
        (by omega) (by simpa using hk) hks (fun i _ h2 => hb i h2)
    · cases hfa : (judge k).final_answer with
      | none => rw [hfa] at hks; simp [truthyStr] at hks
      | some s => simp
  · intro hall
    simpa using runAux_none dumps toolResult reason judge max_plans 0 history0
      (fun i _ h2 => hall i (by simpa using h2))

/-- Judge fixture: sufficient with an answer exactly at iteration index 1
(the second iteration). -/
def c6judge : Nat → SufficiencyVerdict :=
  fun i => if i = 1 then ⟨true, some "final answer"⟩ else ⟨false, none⟩

/-- C6 witness: the spec scenario — a judge signalling sufficiency on the
second iteration stops the loop at iteration count 2 with the non-null
answer, and a judge that never signals sufficiency exhausts the cap of 10
iterations with no answer. -/
theorem C6_witness :
    run (fun s => s) (fun _ _ => "tool output") (fun _ => .other) c6judge []
      = (some "final answer", 2) ∧
    run (fun s => s) (fun _ _ => "tool output") (fun _ => .other)
      (fun _ => ⟨false, none⟩) [] = (none, 10) := by
  constructor
  · have h := ((C6_reasoning_loop (fun s => s) (fun _ _ => "tool output")
      (fun _ => .other) c6judge []).2.1 1 (by decide) (by decide) (by decide)).1
    simpa [c6judge] using h
  · have h := (C6_reasoning_loop (fun s => s) (fun _ _ => "tool output")
      (fun _ => .other) (fun _ => ⟨false, none⟩) []).2.2 (by decide)
    simpa [max_plans] using h

/-! ## Sorting and membership helpers -/

theorem insertSorted_perm {α : Type} (le : α → α → Bool) (x : α) (l : List α) :
    (insertSorted le x l).Perm (x :: l) := by
  induction l with
  | nil => simp [insertSorted]
  | cons y ys ih =>
    simp only [insertSorted]
    split
    · exact List.Perm.refl _
    · exact (ih.cons y).trans (List.Perm.swap x y ys)

theorem stableSort_perm {α : Type} (le : α → α → Bool) (l : List α) :
    (stableSort le l).Perm l := by
  induction l with
  | nil => simp [stableSort]
  | cons x xs ih =>
    exact (insertSorted_perm le x (stableSort le xs)).trans (ih.cons x)

theorem mem_stableSort {α : Type} {le : α → α → Bool} {l : List α} {a : α} :
    a ∈ stableSort le l ↔ a ∈ l :=
  (stableSort_perm le l).mem_iff

theorem stableSort_ne_nil {α : Type} {le : α → α → Bool} {l : List α}
    (h : l ≠ []) : stableSort le l ≠ [] := by
  intro hc
  apply h
  have := (stableSort_perm le l).length_eq
  rw [hc] at this
  exact List.length_eq_zero.mp this.symm

theorem relevanceFilter_mem {query : String} {reports : List Report} {r : Report}
    (h : r ∈ relevanceFilter query reports) : r ∈ reports := by
  simp only [relevanceFilter] at h
  split_ifs at h
  · exact (List.mem_filter.mp h).1
  · exact h
  · exact h

theorem compute_weights_id {reports : List Report} {normalize : Bool} {r : Report}
    (h : r ∈ _compute_community_weights_neo4j reports normalize) :
    ∃ r0 ∈ reports, r.id = r0.id := by
  simp only [_compute_community_weights_neo4j] at h
  split_ifs at h
  · obtain ⟨r1, hr1, rfl⟩ := List.mem_map.mp h
    obtain ⟨r0, hr0, rfl⟩ := List.mem_map.mp hr1
    exact ⟨r0, hr0, rfl⟩
  · obtain ⟨r0, hr0, rfl⟩ := List.mem_map.mp h
    exact ⟨r0, hr0, rfl⟩
  · obtain ⟨r0, hr0, rfl⟩ := List.mem_map.mp h
    exact ⟨r0, hr0, rfl⟩

/-! ## C1: scoping-key preconditions of the two retrieval paths -/

/-- C1 counterexample: with the scoping key absent (`None`), the global
community retrieval does not fail with a missing-scope-key error — it runs
the unscoped Cypher query and returns bob's report (weight computation
disabled here to keep every value concrete). -/
theorem C1_counterexample :
    _get_community_reports_from_neo4j c1store none "alpha" false 0 false true
      = [{ id := "c1", title := "bob community", summary := "bob summary",
           full_content := "bob content", entity_names := [], chunk_texts := [] }] := by
  decide

/-- C1 amended: the local chunk retrieval fails with "User email is
required" before any query is issued whenever the scoping key is absent,
and with "OpenAI API key is required" when the key is present but no
embedding client is configured; the global community retrieval, by
contrast, does not fail on an absent key — it issues the unscoped query
and returns every user's reports. -/
theorem C1_scope_preconditions :
    (∀ (store : Neo4jStore) (ue : Option String) (hasO : Bool)
        (score : Chunk → ℚ) (eOk : Bool) (thr : ℚ), truthyStr ue = false →
        get_chunks_from_neo4j store ue hasO score eOk thr
          = .error "User email is required") ∧
    (∀ (store : Neo4jStore) (score : Chunk → ℚ) (eOk : Bool) (thr : ℚ)
        (e : String), truthyStr (some e) = true →
        get_chunks_from_neo4j store (some e) false score eOk thr
          = .error "OpenAI API key is required") ∧
    (∀ (store : Neo4jStore) (ue : Option String), truthyStr ue = false →
        fetchCommunityReports store ue
          = store.communities.map (fun row => row.report)) := by
  refine ⟨?_, ?_, ?_⟩
  · intro store ue hasO score eOk thr h
    simp [get_chunks_from_neo4j, h]
  · intro store score eOk thr e h
    simp [get_chunks_from_neo4j, h]
  · intro store ue h
    simp [fetchCommunityReports, h]

/-- C1 witness: the local retrieval on an absent key fails with the
missing-scope-key error. -/
theorem C1_witness :
    get_chunks_from_neo4j {} none true (fun _ => 0) true (3/10)
      = .error "User email is required" :=
  C1_scope_preconditions.1 {} none true (fun _ => 0) true (3/10) (by decide)

/-! ## C3: per-caller isolation -/

/-- C3 counterexample: the raw Cypher passthrough (`run_cypher_query`, a
tool the agent can dispatch) imposes no caller scoping — an unfiltered
chunk match executed on behalf of any caller returns bob's row alongside
alice's. -/
theorem C3_counterexample :
    run_cypher_query c3store ⟨.noCond⟩
      = [⟨"alice@example.com", { id := "ca", text := "alice text" }⟩,
         ⟨"bob@example.com", { id := "cb", text := "bob text" }⟩] := by
  decide

/-- C3 amended: the scoped retrieval paths are isolated per caller — every
chunk the local retrieval returns for key `e` derives from a store row
owned by `e`, every report the global retrieval returns for a truthy key
`e` derives from a community row owned by `e`, and hence, under the
store's unique-chunk-id constraint, the chunk-id sets returned to two
distinct keys never overlap.  The raw Cypher passthrough is exempt (see
the counterexample). -/
theorem C3_scoped_isolation :
    (∀ (store : Neo4jStore) (e : String) (hasO : Bool) (score : Chunk → ℚ)
        (eOk : Bool) (thr : ℚ) (chunks : List Chunk),
        get_chunks_from_neo4j store (some e) hasO score eOk thr = .ok chunks →
        ∀ c ∈ chunks, ∃ row ∈ store.chunks, row.userEmail = e ∧ row.chunk.id = c.id) ∧
    (∀ (store : Neo4jStore) (e : String) (query : String) (icr : Bool)
        (mcr : Int) (icw : Bool) (ncw : Bool), e ≠ "" →
        ∀ r ∈ _get_community_reports_from_neo4j store (some e) query icr mcr icw ncw,
          ∃ row ∈ store.communities, row.userEmail = e ∧ row.report.id = r.id) ∧
    (∀ (store : Neo4jStore) (e₁ e₂ : String) (hasO₁ hasO₂ : Bool)
        (score₁ score₂ : Chunk → ℚ) (eOk₁ eOk₂ : Bool) (thr₁ thr₂ : ℚ)
        (chunks₁ chunks₂ : List Chunk),
        e₁ ≠ e₂ → uniqueChunkIds store →
        get_chunks_from_neo4j store (some e₁) hasO₁ score₁ eOk₁ thr₁ = .ok chunks₁ →
        get_chunks_from_neo4j store (some e₂) hasO₂ score₂ eOk₂ thr₂ = .ok chunks₂ →
        ∀ c₁ ∈ chunks₁, ∀ c₂ ∈ chunks₂, c₁.id ≠ c₂.id) := by
  have main : ∀ (store : Neo4jStore) (e : String) (hasO : Bool) (score : Chunk → ℚ)
      (eOk : Bool) (thr : ℚ) (chunks : List Chunk),
      get_chunks_from_neo4j store (some e) hasO score eOk thr = .ok chunks →
      ∀ c ∈ chunks, ∃ row ∈ store.chunks, row.userEmail = e ∧ row.chunk.id = c.id := by
    intro store e hasO score eOk thr chunks hok c hc
    have hbase : ∀ c0 : Chunk, c0 ∈ (store.chunks.filter
        (fun row => some row.userEmail == some e)).map (fun row => row.chunk) →
        ∃ row ∈ store.chunks, row.userEmail = e ∧ row.chunk.id = c0.id := by
      intro c0 h0
      obtain ⟨row, hrow, rfl⟩ := List.mem_map.mp h0
      obtain ⟨hrow', heq⟩ := List.mem_filter.mp hrow
      refine ⟨row, hrow', ?_, rfl⟩
      simpa using heq
    simp only [get_chunks_from_neo4j] at hok
    split_ifs at hok with h1 h2 h3 h4
    all_goals first
      | exact Except.noConfusion hok
      | (injection hok with h
         subst h
         exact hbase c hc)
      | (injection hok with h
         subst h
         have hc1 := (List.mem_filter.mp hc).1
         have hc2 := mem_stableSort.mp hc1
         obtain ⟨c0, hc0, rfl⟩ := List.mem_map.mp hc2
         obtain ⟨row, hrow, he, hid⟩ := hbase c0 hc0
         exact ⟨row, hrow, he, hid⟩)
  refine ⟨main, ?_, ?_⟩
  · intro store e query icr mcr icw ncw he r hr
    have hfetch : ∀ r0 : Report, r0 ∈ fetchCommunityReports store (some e) →
        ∃ row ∈ store.communities, row.userEmail = e ∧ row.report.id = r0.id := by
      intro r0 h0
      simp only [fetchCommunityReports, truthyStr] at h0
      rw [if_pos (by simpa using he)] at h0
      obtain ⟨row, hrow, rfl⟩ := List.mem_map.mp h0
      obtain ⟨hrow', heq⟩ := List.mem_filter.mp hrow
      refine ⟨row, hrow', ?_, rfl⟩
      simpa using heq
    simp only [_get_community_reports_from_neo4j] at hr
    have step : ∃ r0 ∈ fetchCommunityReports store (some e), r.id = r0.id := by
      split_ifs at hr with hw hrk hrk2
      all_goals first
        | exact ⟨_, relevanceFilter_mem (List.mem_filter.mp hr).1, rfl⟩
        | exact ⟨_, relevanceFilter_mem hr, rfl⟩
        | (obtain ⟨r1, hr1, hid⟩ := compute_weights_id hr
           first
             | exact ⟨_, relevanceFilter_mem (List.mem_filter.mp hr1).1, hid⟩
             | exact ⟨_, relevanceFilter_mem hr1, hid⟩)
    obtain ⟨r0, hr0, hid⟩ := step
    obtain ⟨row, hrow, hmail, hid0⟩ := hfetch r0 hr0
    exact ⟨row, hrow, hmail, by rw [hid0, ← hid]⟩
  · intro store e₁ e₂ hasO₁ hasO₂ score₁ score₂ eOk₁ eOk₂ thr₁ thr₂
      chunks₁ chunks₂ hne huniq hok₁ hok₂ c₁ hc₁ c₂ hc₂ hid
    obtain ⟨row₁, hrow₁, hm₁, hid₁⟩ := main store e₁ hasO₁ score₁ eOk₁ thr₁ chunks₁ hok₁ c₁ hc₁
    obtain ⟨row₂, hrow₂, hm₂, hid₂⟩ := main store e₂ hasO₂ score₂ eOk₂ thr₂ chunks₂ hok₂ c₂ hc₂
    have : row₁ = row₂ := huniq row₁ hrow₁ row₂ hrow₂ (by rw [hid₁, hid₂, hid])
    apply hne
    rw [← hm₁, ← hm₂, this]

/-- C3 witness: alice's scoped local retrieval on the two-user fixture store
returns only chunks derived from rows owned by alice. -/
theorem C3_witness :
    ∃ row ∈ c3store.chunks, row.userEmail = "alice@example.com"
      ∧ row.chunk.id = "ca" := by
  have h := C3_scoped_isolation.1 c3store "alice@example.com" true (fun _ => 0)
    false (3/10) [{ id := "ca", text := "alice text" }] (by rfl)
    { id := "ca", text := "alice text" } (by decide)
  simpa using h

/-! ## C10: all-whitespace chunk batches raise instead of returning empty -/

theorem packChunksLoop_extends (tc : Option (String → Nat)) (maxTok : Nat)
    (chunks : List Chunk) (ctx : List String) (toks : Nat) :
    ∃ suffix, packChunksLoop tc maxTok chunks ctx toks = ctx ++ suffix := by
  induction chunks generalizing ctx toks with
  | nil => exact ⟨[], by simp [packChunksLoop]⟩
  | cons c rest ih =>
    simp only [packChunksLoop]
    split
    · exact ⟨[], by simp⟩
    · obtain ⟨suffix, hs⟩ := ih (ctx ++ [_chunk_context_text c])
        (toks + chunkTokens tc (_chunk_context_text c))
      exact ⟨_chunk_context_text c :: suffix, by rw [hs, List.append_assoc]; rfl⟩

theorem chunk_text_length_pos (c : Chunk) : 0 < (_chunk_context_text c).length := by
  simp only [_chunk_context_text, String.length_append]
  have h10 : ("Chunk ID: " : String).length = 10 := by decide
  omega

/-- C10: when the input chunk list is non-empty but every chunk has empty or
whitespace-only text, `_build_chunks_context` raises (the `IndexError` from
`included_chunks[0]` in the log call) instead of returning the empty
result; the empty "no context available" result `("", {})` is returned
exactly when the input list itself is empty. -/
theorem C10_allwhitespace_raises (tc : Option (String → Nat))
    (chunks_data : List Chunk) (max_context_tokens : Nat) :
    (chunks_data ≠ [] → (∀ c ∈ chunks_data, _is_included_chunk c = false) →
      _build_chunks_context tc chunks_data max_context_tokens
        = .error "IndexError: list index out of range") ∧
    (_build_chunks_context tc chunks_data max_context_tokens = .ok ("", [])
      ↔ chunks_data = []) := by
  constructor
  · intro hne hall
    have hfilter : chunks_data.filter _is_included_chunk = [] := by
      rw [List.filter_eq_nil_iff]
      intro c hc
      simp [hall c hc]
    simp only [_build_chunks_context]
    rw [if_neg (by simpa [List.isEmpty_iff] using hne), hfilter]
  · constructor
    · intro h
      by_contra hne
      simp only [_build_chunks_context] at h
      rw [if_neg (by simpa [List.isEmpty_iff] using hne)] at h
      rcases hcase : chunks_data.filter _is_included_chunk with _ | ⟨c0, rest⟩
      · rw [hcase] at h
        exact absurd h (by simp)
      · rw [hcase] at h
        obtain ⟨suffix, hs⟩ := packChunksLoop_extends tc max_context_tokens rest
          [_chunk_context_text c0]
          (0 + chunkTokens tc (_chunk_context_text c0))
        have hpack : packChunksLoop tc max_context_tokens (c0 :: rest) [] 0
            = _chunk_context_text c0 :: suffix := by
          simp only [packChunksLoop]
          rw [if_neg (by simp)]
          simpa using hs
        simp only [hpack] at h
        rw [if_neg (by simp)] at h
        have hok := h
        simp only [Except.ok.injEq, Prod.mk.injEq] at hok
        have hjoin : (pyJoin "\n\n---\n\n" (_chunk_context_text c0 :: suffix)).length
            ≥ (_chunk_context_text c0).length := by
          cases suffix with
          | nil => simp [pyJoin]
          | cons y ys =>
            show (_chunk_context_text c0 ++ "\n\n---\n\n" ++ pyJoin _ (y :: ys)).length ≥ _
            rw [String.length_append, String.length_append]
            omega
        have hzero : (pyJoin "\n\n---\n\n" (_chunk_context_text c0 :: suffix)).length = 0 := by
          rw [hok.1]
          decide
        have := chunk_text_length_pos c0
        omega
    · intro h
      subst h
      simp [_build_chunks_context]

/-- C10 witness: a singleton list holding one whitespace-only chunk makes
the local packer raise rather than return the empty result. -/
theorem C10_witness :
    _build_chunks_context none [c10chunk] 8000
      = .error "IndexError: list index out of range" :=
  (C10_allwhitespace_raises none [c10chunk] 8000).1 (by decide) (by decide)

/-! ## C2 and C8: the batch packers -/

theorem communityBatches_mem (tc : String → Nat) (p : GlobalContextParams)
    (sel : List Report) (b : List ReportRow) (hb : b ∈ communityBatches tc p sel) :
    b = _convert_report_context_to_df p
        (packReportsLoop tc p sel [] (tc (globalHeaderText p))).1 ∧
      (packReportsLoop tc p sel [] (tc (globalHeaderText p))).1 ≠ [] := by
  by_cases hP : (packReportsLoop tc p sel [] (tc (globalHeaderText p))).1.isEmpty
  · exfalso
    simp [communityBatches, hP] at hb
  · have hne : (packReportsLoop tc p sel [] (tc (globalHeaderText p))).1 ≠ [] := by
      simpa [List.isEmpty_iff] using hP
    refine ⟨?_, hne⟩
    by_cases hbroke : (packReportsLoop tc p sel [] (tc (globalHeaderText p))).2.2
    · simp [communityBatches, hP, hbroke] at hb
      split at hb
      · simpa using hb
      · simp only [List.mem_cons, List.not_mem_nil, or_false] at hb
        rcases hb with hb | hb <;> exact hb
    · simp [communityBatches, hP, hbroke] at hb
      exact hb

theorem packReportsLoop_spec (tc : String → Nat) (p : GlobalContextParams)
    (reports : List Report) (recs : List ReportRow) (toks : Nat)
    (hsum : toks = tc (globalHeaderText p)
      + (recs.map (fun row => tc (rowText p row))).sum)
    (hbnd : recs ≠ [] → toks ≤ p.max_context_tokens) :
    (packReportsLoop tc p reports recs toks).2.1
      = tc (globalHeaderText p)
        + ((packReportsLoop tc p reports recs toks).1.map
            (fun row => tc (rowText p row))).sum ∧
    ((packReportsLoop tc p reports recs toks).1 ≠ [] →
      (packReportsLoop tc p reports recs toks).2.1 ≤ p.max_context_tokens) := by
  induction reports generalizing recs toks with
  | nil =>
    simp only [packReportsLoop]
    exact ⟨hsum, hbnd⟩
  | cons r rest ih =>
    simp only [packReportsLoop]
    split
    · exact ⟨hsum, hbnd⟩
    · rename_i hover
      apply ih
      · rw [hsum, List.map_append, List.sum_append]
        simp only [List.map_cons, List.map_nil, List.sum_cons, List.sum_nil]
        simp only [rowText, _report_context_text]
        omega
      · intro _
        omega

theorem communityBatch_tokens_le (tc : String → Nat) (p : GlobalContextParams)
    (sel : List Report) (batch : List ReportRow)
    (hb : batch ∈ communityBatches tc p sel) :
    tc (globalHeaderText p) + (batch.map (fun row => tc (rowText p row))).sum
      ≤ p.max_context_tokens := by
  obtain ⟨hbeq, hne⟩ := communityBatches_mem tc p sel batch hb
  have hspec := packReportsLoop_spec tc p sel [] (tc (globalHeaderText p))
    (by simp) (fun h => absurd rfl h)
  have hsum : (batch.map (fun row => tc (rowText p row))).sum
      = ((packReportsLoop tc p sel [] (tc (globalHeaderText p))).1.map
          (fun row => tc (rowText p row))).sum := by
    rw [hbeq]
    exact ((stableSort_perm _ _).map _).sum_eq
  rw [hsum, ← hspec.1]
  exact hspec.2 hne

theorem packChunksLoop_invariant (tc : Option (String → Nat)) (maxTok : Nat)
    (chunks : List Chunk) (ctx : List String) (toks : Nat)
    (hsum : toks = (ctx.map (chunkTokens tc)).sum)
    (hinv : ctx.length ≤ 1 ∨ toks ≤ maxTok) :
    (packChunksLoop tc maxTok chunks ctx toks).length ≤ 1 ∨
      ((packChunksLoop tc maxTok chunks ctx toks).map (chunkTokens tc)).sum
        ≤ maxTok := by
  induction chunks generalizing ctx toks with
  | nil =>
    simp only [packChunksLoop]
    rcases hinv with h | h
    · exact Or.inl h
    · exact Or.inr (by rw [← hsum]; exact h)
  | cons c rest ih =>
    simp only [packChunksLoop]
    split
    · rcases hinv with h | h
      · exact Or.inl h
      · exact Or.inr (by rw [← hsum]; exact h)
    · rename_i hcond
      apply ih
      · rw [hsum, List.map_append, List.sum_append]
        simp
      · cases ctx with
        | nil => exact Or.inl (by simp)
        | cons a as =>
          refine Or.inr ?_
          have hle : ¬ toks + chunkTokens tc (_chunk_context_text c) > maxTok := by
            intro hgt
            apply hcond
            simp [hgt]
          omega

/-- Fixture packing options: no shuffling, no weight or rank columns. -/
def c8params : GlobalContextParams :=
  { shuffle_data := false, include_community_rank := false,
    include_community_weight := false }

/-- The text the local packer serializes for `c2chunk`. -/
def c2text : String :=
  "Chunk ID: k1\nText: one two three four five\nEntities: \nEntity Descriptions: \nEntity Types: \nDocuments: \nRelevance Score: 0\n"

/-- C2 counterexample: with `max_context_tokens = 1` and no token encoder
(tokens = word count), the local packer still packs the first chunk; the
single returned batch text has a measured token count of 18 > 1, so the
claimed ceiling is violated. -/
theorem C2_counterexample :
    _build_chunks_context none [c2chunk] 1 = .ok (c2text, []) ∧
      chunkTokens none c2text = 18 := by
  constructor
  · rfl
  · decide

/-- C2 amended: the token ceiling holds for the packers' own measured token
counts — every batch the global builder emits satisfies
`tc(header) + Σ tc(row) ≤ max_context_tokens` (the header overhead is
pre-counted, and the pandas CSV re-serialization is not re-measured);
the local packer guarantees `Σ tokens(chunk text) ≤ max_context_tokens`
only when more than one chunk is packed — the first included chunk is
packed unconditionally even when it alone exceeds the ceiling (and the
`"\n\n---\n\n"` separators of the final join are not measured). -/
theorem C2_token_budget :
    (∀ (tc : String → Nat) (p : GlobalContextParams)
        (shuffle : List Report → List Report) (reports : List Report)
        (batch : List ReportRow),
        batch ∈ (_build_community_context tc p shuffle reports).1 →
        tc (globalHeaderText p) + (batch.map (fun row => tc (rowText p row))).sum
          ≤ p.max_context_tokens) ∧
    (∀ (tc : Option (String → Nat)) (maxTok : Nat) (chunks : List Chunk),
        (packChunksLoop tc maxTok chunks [] 0).length ≤ 1 ∨
          ((packChunksLoop tc maxTok chunks [] 0).map (chunkTokens tc)).sum
            ≤ maxTok) := by
  constructor
  · intro tc p shuffle reports batch hb
    simp only [_build_community_context] at hb
    split_ifs at hb
    all_goals first
      | exact absurd hb (List.not_mem_nil batch)
      | exact communityBatch_tokens_le tc p _ batch hb
  · intro tc maxTok chunks
    exact packChunksLoop_invariant tc maxTok chunks [] 0 rfl (Or.inl (by simp))

/-- C2 witness: on a one-report batch with a zero-cost token counter, the
emitted global batch satisfies the measured ceiling. -/
theorem C2_witness :
    (fun _ : String => 0) (globalHeaderText c8params)
      + (([⟨c4r1, ["1", "t1", "s1"]⟩] : List ReportRow).map
          (fun row => (fun _ : String => 0) (rowText c8params row))).sum
      ≤ c8params.max_context_tokens :=
  C2_token_budget.1 (fun _ => 0) c8params (fun l => l) [c4r1]
    [⟨c4r1, ["1", "t1", "s1"]⟩] (by decide)

/-- C8 counterexample: the local packer packs a record (the returned batch
text is the non-empty serialization of `c2chunk`) yet returns an empty
`context_records` mapping — there is no "chunks" entry. -/
theorem C8_counterexample :
    _build_chunks_context (some (fun _ => 0)) [c2chunk] 8000
      = .ok (c2text, []) := by
  rfl

/-- C8 amended: whenever the global builder packs at least one record, its
`context_records` holds exactly the entry mapping the lowercased
batch-class name (`"reports"` for the default) to all packed records; the
local builder always returns an empty `context_records` mapping — its
packed rows are dropped, so no "chunks" entry is ever produced. -/
theorem C8_context_records :
    (∀ (tc : String → Nat) (p : GlobalContextParams)
        (shuffle : List Report → List Report) (reports : List Report),
        (_build_community_context tc p shuffle reports).1 ≠ [] →
        (_build_community_context tc p shuffle reports).2
          = [(strToLower p.context_name,
              (_build_community_context tc p shuffle reports).1.flatten)]) ∧
    (∀ (tc : Option (String → Nat)) (chunks : List Chunk) (maxTok : Nat)
        (st : String) (recs : List (String × List String)),
        _build_chunks_context tc chunks maxTok = .ok (st, recs) → recs = []) := by
  constructor
  · intro tc p shuffle reports h
    simp only [_build_community_context] at h ⊢
    split_ifs at h ⊢
    all_goals first
      | exact absurd rfl h
      | rfl
  · intro tc chunks maxTok st recs hok
    simp only [_build_chunks_context] at hok
    split_ifs at hok
    all_goals first
      | (injection hok with h
         injection h with ha hb
         exact hb.symm)
      | (rcases hcase : chunks.filter _is_included_chunk with _ | ⟨c0, rest⟩
         · rw [hcase] at hok
           exact Except.noConfusion hok
         · rw [hcase] at hok
           injection hok with h
           injection h with ha hb
           exact hb.symm)

/-- C8 witness: the global builder on a one-report input returns the
"reports" entry holding the packed record. -/
theorem C8_witness :
    (_build_community_context (fun _ => 0) c8params (fun l => l) [c4r1]).2
      = [("reports", [⟨c4r1, ["1", "t1", "s1"]⟩])] := by
  have h := C8_context_records.1 (fun _ => 0) c8params (fun l => l) [c4r1] (by decide)
  rw [h]
  decide

end GraphragSearch
